import Mathlib

/-!
Shallow embedding of the Hypercore log façade (`src/index.js`) and proofs
about its public contract: the read path `get`/`_get`, the write path
`append`/`truncate`, session capability passing and the `writable` flag,
snapshot pinning of the `(length, byteLength, fork)` getters, the event
fan-out of `_oncoreupdate`, `download` range construction, and the
`_encode`/`_decode` value codec round-trip.

Blocks are byte sequences, modelled as `List Nat`.  JavaScript `null` is
modelled by `Option`.  External collaborators (`Core`, `Replicator`) are
modelled through the contract the façade consumes: the core's tree
`(length, byteLength, fork)`, its bitfield and block store, and the
replicator's block fetch, all explicit state or oracle parameters.
-/

namespace Hypercore

/-- A block payload: a sequence of bytes. -/
abbrev Bytes := List Nat

/-! ## Core state as consumed by the read path

`core.tree.{length, byteLength, fork}`, `core.bitfield.get`,
`core.blocks.get` from the Core contract (§6 of the spec). -/

/-- The slice of Core state that `get`/`_get` consult: the tree counters,
the bitfield and the block store. -/
structure CoreState where
  length : Nat
  byteLength : Nat
  fork : Nat
  bitfield : Nat → Bool
  blocks : Nat → Bytes

/-- The per-session read state: the shared core and the optional
configured cache (`this.cache`), a map from index to the cached decoded
value.  `cache = none` models a session with no cache configured. -/
structure ReadState where
  core : CoreState
  cache : Option (Nat → Option Bytes)
  padding : Nat

/-- Model of `this.cache && this.cache.get(index)`: the cache lookup, `none` when
no cache is configured or the entry is absent.  (Cached values are always
truthy in JS: they are buffers or decoded objects, and `cache.set` only
stores truthy values.) -/
def cacheLookup (s : ReadState) (index : Nat) : Option Bytes :=
  match s.cache with
  | none => none
  | some m => m index

/-- Model of `cache.set(index, b)` on the read state. -/
def cacheInsert (s : ReadState) (index : Nat) (v : Bytes) : ReadState :=
  match s.cache with
  | none => s
  | some m => { s with cache := some (fun i => if i = index then some v else m i) }

/-- Model of `_decode(enc, block)` with no value encoding configured:
`block.subarray(this.padding)` strips the encryption padding prefix. -/
def decodeRaw (padding : Nat) (block : Bytes) : Bytes :=
  block.drop padding

/-- The block bytes `_get` obtains before decoding (`index.js` lines
444-450): from local block storage when the bitfield has the index,
`null` when it does not and `opts.wait === false`, otherwise from
`replicator.requestBlock(index)` (modelled by the oracle `fetch`). -/
def getBlock (s : ReadState) (index : Nat) (wait : Bool) (fetch : Nat → Bytes) :
    Option Bytes :=
  if s.core.bitfield index then some (s.core.blocks index)
  else if wait = false then none
  else some (fetch index)

/-- Model of `_get(index, opts)` (`index.js` lines 439-454): obtain the block, then
decode (stripping the padding prefix; no value encoding configured). -/
def hcGet' (s : ReadState) (index : Nat) (wait : Bool) (fetch : Nat → Bytes) :
    Option Bytes :=
  (getBlock s index wait fetch).map (decodeRaw s.padding)

/-- Model of `get(index, opts)` (`index.js` lines 429-437).  `postFork` is
`this.core.tree.fork` at the moment the awaited `_get` resolves (the fork
may change across the suspension point).  Returns the resolved value and
the updated read state: on a cache hit the cached value is returned; on a
miss the `_get` result is returned, and inserted into the cache exactly
when a cache is configured, the fork is unchanged and the value is truthy
(non-null). -/
def hcGet (s : ReadState) (index : Nat) (wait : Bool) (fetch : Nat → Bytes)
    (postFork : Nat) : Option Bytes × ReadState :=
  match cacheLookup s index with
  | some c => (some c, s)
  | none =>
    (hcGet' s index wait fetch,
     match hcGet' s index wait fetch with
     | some v =>
       if s.cache.isSome ∧ s.core.fork = postFork then cacheInsert s index v else s
     | none => s)

/-- A concrete read state: one block at index 0 whose payload is the empty
buffer, a configured (empty) cache, no encryption padding, fork 5. -/
def cexRead : ReadState :=
  ⟨⟨1, 0, 5, fun i => i = 0, fun _ => []⟩, some (fun _ => none), 0⟩

/-- A concrete read state: one block `[7, 8, 9]` at index 0, a configured
(empty) cache, no encryption padding. -/
def exRead : ReadState :=
  ⟨⟨1, 3, 0, fun i => i = 0, fun _ => [7, 8, 9]⟩, some (fun _ => none), 0⟩

/-- Claim C2 as stated, at one call site: if the fork changed across the
fetch, the fetched value is still returned and the cache is untouched;
and a value is inserted into the cache only when the fork is unchanged
and the decoded value is non-empty. -/
def claimC2At (s : ReadState) (i : Nat) (wait : Bool) (fetch : Nat → Bytes)
    (postFork : Nat) : Prop :=
  (s.core.fork ≠ postFork →
    (hcGet s i wait fetch postFork).1 = hcGet' s i wait fetch ∧
    (hcGet s i wait fetch postFork).2 = s) ∧
  (∀ v, cacheLookup (hcGet s i wait fetch postFork).2 i = some v →
    cacheLookup s i = some v ∨ (s.core.fork = postFork ∧ v ≠ []))

end Hypercore

namespace Hypercore

/-! ## Theorems: read path (claims C1 and C2) -/

/-- C1: on an opened session whose cache is coherent with the bitfield
(a cached entry exists only for a locally present block), `get` resolves
to `null` iff `opts.wait === false` and the block is absent from the
local bitfield; otherwise it resolves to the decoded block, which comes
from the cache, from local block storage, or from the replicator fetch. -/
theorem get_null_iff_nowait_absent (s : ReadState) (i : Nat) (wait : Bool)
    (fetch : Nat → Bytes) (postFork : Nat)
    (hcoh : ∀ v, cacheLookup s i = some v → s.core.bitfield i = true) :
    ((hcGet s i wait fetch postFork).1 = none ↔
      (wait = false ∧ s.core.bitfield i = false)) ∧
    (∀ v, (hcGet s i wait fetch postFork).1 = some v →
      cacheLookup s i = some v ∨ v = decodeRaw s.padding (s.core.blocks i) ∨
        v = decodeRaw s.padding (fetch i)) := by
  rcases h : cacheLookup s i with _ | c
  · simp only [hcGet, h]
    unfold hcGet' getBlock
    rcases hb : s.core.bitfield i with _ | _
    · rcases wait with _ | _
      · simp [hb]
      · refine ⟨by simp [hb], ?_⟩
        intro v hv
        simp [hb] at hv
        simp [hv]
    · refine ⟨by simp [hb], ?_⟩
      intro v hv
      simp [hb] at hv
      simp [hv]
  · have hb := hcoh c h
    simp only [hcGet, h, hb]
    refine ⟨by simp, ?_⟩
    intro v hv
    simp only [Option.some.injEq] at hv
    subst hv
    exact Or.inl rfl

/-- Closed witness for `get_null_iff_nowait_absent` at a concrete state:
empty cache, block 0 present locally. -/
theorem get_null_iff_nowait_absent_witness :
    ((hcGet ⟨⟨1, 3, 0, fun i => i = 0, fun _ => [7, 8, 9]⟩, some (fun _ => none), 0⟩
        0 false (fun _ => []) 0).1 = none ↔
      (false = false ∧ (⟨⟨1, 3, 0, fun i => i = 0, fun _ => [7, 8, 9]⟩,
        some (fun _ => none), 0⟩ : ReadState).core.bitfield 0 = false)) ∧
    (∀ v, (hcGet ⟨⟨1, 3, 0, fun i => i = 0, fun _ => [7, 8, 9]⟩,
        some (fun _ => none), 0⟩ 0 false (fun _ => []) 0).1 = some v →
      cacheLookup ⟨⟨1, 3, 0, fun i => i = 0, fun _ => [7, 8, 9]⟩,
        some (fun _ => none), 0⟩ 0 = some v ∨
      v = decodeRaw 0 ([7, 8, 9] : Bytes) ∨ v = decodeRaw 0 ([] : Bytes)) :=
  get_null_iff_nowait_absent _ 0 false _ 0 (by intro v hv; simp [cacheLookup] at hv)

/-- C2 counterexample: at `cexRead`, block 0 decodes to the empty buffer;
`get(0)` with an unchanged fork inserts that empty value into the cache,
so the claim's "inserted only when ... the decoded value is non-empty"
fails (the code tests JS truthiness of the decoded value, and a buffer —
even empty — is truthy). -/
theorem get_cache_inserts_empty_value : ¬ claimC2At cexRead 0 true (fun _ => []) 5 := by
  intro hcl
  have h := hcl.2 [] (by decide)
  rcases h with h | ⟨-, hne⟩
  · exact absurd h (by decide)
  · exact hne rfl

/-- C2 (amended): on a cache miss, `get` returns the `_get` result to the
caller whether or not the fork changed across the fetch, and an entry is
inserted into the cache exactly when a cache is configured, the fork is
unchanged at resolution time, and the decoded value is non-null (an empty
decoded buffer is still truthy in JS and so is still inserted). -/
theorem get_cache_insertion (s : ReadState) (i : Nat) (wait : Bool)
    (fetch : Nat → Bytes) (postFork : Nat)
    (hmiss : cacheLookup s i = none) :
    (hcGet s i wait fetch postFork).1 = hcGet' s i wait fetch ∧
    (∀ v, cacheLookup (hcGet s i wait fetch postFork).2 i = some v ↔
      (s.cache.isSome = true ∧ s.core.fork = postFork ∧
        hcGet' s i wait fetch = some v)) := by
  simp only [hcGet, hmiss]
  rcases hb : hcGet' s i wait fetch with _ | v0 <;> simp only [hb]
  · exact ⟨trivial, fun v => by simp [hmiss]⟩
  · refine ⟨trivial, fun v => ?_⟩
    by_cases hc : (s.cache.isSome = true ∧ s.core.fork = postFork)
    · rcases s with ⟨core, cache, pad⟩
      rcases cache with _ | m
      · simp at hc
      · simp only [cacheLookup] at hmiss
        simp only [if_pos hc, cacheInsert, cacheLookup]
        simp [hc.1, hc.2]
        exact fun _ => hc.2
    · simp only [if_neg hc, hmiss]
      constructor
      · exact fun hv => Option.noConfusion hv
      · exact fun hfull => absurd ⟨hfull.1, hfull.2.1⟩ hc

/-- Closed witness for `get_cache_insertion` at `exRead`: the cache is
empty at index 0, and `get(0)` returns the `_get` result. -/
theorem get_cache_insertion_witness :
    cacheLookup exRead 0 = none ∧
    (hcGet exRead 0 true (fun _ => [1]) 0).1 = hcGet' exRead 0 true (fun _ => [1]) :=
  ⟨by decide, (get_cache_insertion exRead 0 true (fun _ => [1]) 0 (by decide)).1⟩

end Hypercore

namespace Hypercore

/-! ## Write path: `append` and `truncate` (`index.js` lines 503-531)

The Core's tree counters are the state acted on; the calls the façade
makes into the Core and the Replicator are recorded as an ordered action
trace, so that "the Replicator is signaled after the Core returns" is a
statement about the trace. -/

/-- Model of `core.tree` counters: `length`, `byteLength`, `fork`. -/
structure TreeState where
  len : Nat
  byteLen : Nat
  fork : Nat
deriving DecidableEq

/-- Calls the façade makes during `append`/`truncate`, in order. -/
inductive WriteAction where
  | coreAppend (buffers : List Bytes)
  | coreTruncate (newLength : Nat) (fork : Int)
  | replicatorUpdateAll
deriving DecidableEq

/-- The state a writable session acts on: the shared tree counters plus
the session's `writable` flag. -/
structure WriteState where
  tree : TreeState
  writable : Bool
deriving DecidableEq

/-- Result of an `append`/`truncate` call: resulting state, the ordered
trace of Core/Replicator calls made, and the error, if any
(`some notWritableMsg` models a rejected promise). -/
structure OpResult where
  st : WriteState
  trace : List WriteAction
  err : Option String
deriving DecidableEq

/-- The message of the error thrown by `append`/`truncate` on a
non-writable session (`index.js` lines 505 and 516). -/
def notWritableMsg : String := "Core is not writable"

/-- Model of `core.append(buffers, ...)` effect on the tree counters: extends the
length by the number of buffers and the byte length by their sizes. -/
def coreAppendTree (t : TreeState) (buffers : List Bytes) : TreeState :=
  { t with len := t.len + buffers.length,
           byteLen := t.byteLen + (buffers.map List.length).sum }

/-- Model of `append(blocks)` (`index.js` lines 514-531) for a session with no
value encoding and no encryption (each block passes through `_encode`
unchanged): reject when not writable without touching the Core, else call
`core.append`. -/
def happend (s : WriteState) (blocks : List Bytes) : OpResult :=
  if s.writable = false then ⟨s, [], some notWritableMsg⟩
  else ⟨{ s with tree := coreAppendTree s.tree blocks }, [.coreAppend blocks], none⟩

/-- Model of `truncate(newLength, fork = -1)` (`index.js` lines 503-512): reject
when not writable without touching the Core; else resolve `fork === -1`
to `core.tree.fork + 1`, call `core.truncate(newLength, fork, sign)` and
then `replicator.updateAll()`. -/
def htruncate (s : WriteState) (newLength : Nat) (fork : Int) : OpResult :=
  if s.writable = false then ⟨s, [], some notWritableMsg⟩
  else
    let f : Int := if fork = -1 then (s.tree.fork : Int) + 1 else fork
    ⟨{ s with tree := { s.tree with len := newLength, fork := f.toNat } },
     [.coreTruncate newLength f, .replicatorUpdateAll], none⟩

/-- C3: on a session without a signer (`writable === false`), both
`append` and `truncate` reject with the NotWritable error, make no
Core/Replicator call, and leave the tree's length, byte length and fork
unchanged. -/
theorem append_truncate_not_writable (s : WriteState) (blocks : List Bytes)
    (n : Nat) (f : Int) (h : s.writable = false) :
    happend s blocks = ⟨s, [], some notWritableMsg⟩ ∧
    htruncate s n f = ⟨s, [], some notWritableMsg⟩ ∧
    (happend s blocks).st.tree = s.tree ∧
    (htruncate s n f).st.tree = s.tree := by
  simp [happend, htruncate, h]

/-- Closed witness for `append_truncate_not_writable` on a concrete
read-only session. -/
theorem append_truncate_not_writable_witness :
    happend ⟨⟨3, 6, 0⟩, false⟩ [[1, 2]] = ⟨⟨⟨3, 6, 0⟩, false⟩, [], some notWritableMsg⟩ ∧
    htruncate ⟨⟨3, 6, 0⟩, false⟩ 1 (-1) = ⟨⟨⟨3, 6, 0⟩, false⟩, [], some notWritableMsg⟩ ∧
    (happend ⟨⟨3, 6, 0⟩, false⟩ [[1, 2]]).st.tree = (⟨3, 6, 0⟩ : TreeState) ∧
    (htruncate ⟨⟨3, 6, 0⟩, false⟩ 1 (-1)).st.tree = (⟨3, 6, 0⟩ : TreeState) :=
  append_truncate_not_writable ⟨⟨3, 6, 0⟩, false⟩ [[1, 2]] 1 (-1) rfl

/-- C4: on a writable session, `truncate(n)` with the default fork
argument calls `core.truncate` with the current fork plus one, and
`truncate(n, f)` with `f ≥ 0` calls it with `f`; in both cases the
Replicator's `updateAll` is invoked after the Core call. -/
theorem truncate_fork_choice (s : WriteState) (n : Nat) (f : Int)
    (hw : s.writable = true) :
    (htruncate s n (-1)).trace =
      [.coreTruncate n ((s.tree.fork : Int) + 1), .replicatorUpdateAll] ∧
    (0 ≤ f →
      (htruncate s n f).trace = [.coreTruncate n f, .replicatorUpdateAll]) := by
  constructor
  · simp [htruncate, hw]
  · intro hf
    have hne : f ≠ -1 := by omega
    simp [htruncate, hw, hne]

/-- Closed witness for `truncate_fork_choice` on a writable session at
fork 2: default argument yields fork 3, explicit argument 7 yields 7. -/
theorem truncate_fork_choice_witness :
    (htruncate ⟨⟨5, 9, 2⟩, true⟩ 1 (-1)).trace =
      [.coreTruncate 1 3, .replicatorUpdateAll] ∧
    (htruncate ⟨⟨5, 9, 2⟩, true⟩ 1 7).trace =
      [.coreTruncate 1 7, .replicatorUpdateAll] :=
  ⟨(truncate_fork_choice ⟨⟨5, 9, 2⟩, true⟩ 1 7 rfl).1,
   (truncate_fork_choice ⟨⟨5, 9, 2⟩, true⟩ 1 7 rfl).2 (by decide)⟩

end Hypercore

namespace Hypercore

/-! ## Session lifecycle: `sign` and `writable`

The constructor (`index.js` lines 60-68), `_passCapabilities` (158-168),
the tail of `_openSession` (216-217, 230) and `_close` (275-298) are the
places that touch `sign`, `writable`, `opened` and `closed`.  Signers are
opaque; `sign : Option Nat` models presence of a signer. -/

/-- The lifecycle-relevant fields of a session. -/
structure SessionLife where
  sign : Option Nat
  writable : Bool
  opened : Bool
  closed : Bool
deriving DecidableEq

/-- The constructor (`index.js` lines 60-73): `writable = false`,
`sign = opts.sign || null`, not yet opened, not closed. -/
def sessionInit (sign : Option Nat) : SessionLife :=
  ⟨sign, false, false, false⟩

/-- Model of `_passCapabilities(o)` (`index.js` lines 158-168): adopt the source's
signer only when none is present locally, then recompute
`writable = !!sign`. -/
def passCapabilities (s : SessionLife) (parentSign : Option Nat) : SessionLife :=
  let sg := if s.sign.isSome then s.sign else parentSign
  { s with sign := sg, writable := sg.isSome }

/-- The end of `_openSession` (`index.js` lines 216-217, 230): fall back
to `core.defaultSign` when no signer is present, set
`writable = !!sign`, and mark the session opened. -/
def openFinish (s : SessionLife) (defaultSign : Option Nat) : SessionLife :=
  let sg := if s.sign.isSome then s.sign else defaultSign
  { s with sign := sg, writable := sg.isSome, opened := true }

/-- Model of `_close` (`index.js` lines 281-285): the session is detached,
`writable := false`, `closed := true`, `opened := false`; the signer
field is not cleared. -/
def closeSession (s : SessionLife) : SessionLife :=
  { s with writable := false, opened := false, closed := true }

/-- The lifecycle steps that touch `sign`/`writable`/`opened`/`closed`. -/
inductive LifeOp where
  | passCaps (parentSign : Option Nat)
  | openFin (defaultSign : Option Nat)
  | closeS

/-- Apply one lifecycle step. -/
def applyLifeOp (s : SessionLife) : LifeOp → SessionLife
  | .passCaps p => passCapabilities s p
  | .openFin d => openFinish s d
  | .closeS => closeSession s

/-- Apply a sequence of lifecycle steps. -/
def applyLifeOps (s : SessionLife) (ops : List LifeOp) : SessionLife :=
  ops.foldl applyLifeOp s

/-- C5 counterexample: a freshly constructed session that was given a
signer (`opts.sign`) holds `sign` but has `writable = false` until
opening or `_passCapabilities` recomputes it, so "writable iff a signer
is present at every point in the session's lifetime" fails at
construction time.  (`_close` gives a second violation: it resets
`writable` to `false` but leaves the signer in place.) -/
theorem writable_iff_sign_fails_at_construction :
    ¬ ((sessionInit (some 7)).writable = true ↔
        (sessionInit (some 7)).sign.isSome = true) := by
  decide

/-- C5 (amended): while a session is open — after `_openSession`
completed and before `_close` ran — `writable` is true iff a signer is
present.  Every lifecycle step that can mark the session opened also
recomputes `writable = !!sign`, and `_close` withdraws `opened`. -/
theorem writable_iff_sign_while_open (sign0 : Option Nat) (ops : List LifeOp)
    (h : (applyLifeOps (sessionInit sign0) ops).opened = true) :
    (applyLifeOps (sessionInit sign0) ops).writable =
      (applyLifeOps (sessionInit sign0) ops).sign.isSome := by
  suffices H : ∀ (s : SessionLife), (s.opened = true → s.writable = s.sign.isSome) →
      ((applyLifeOps s ops).opened = true →
        (applyLifeOps s ops).writable = (applyLifeOps s ops).sign.isSome) by
    exact H (sessionInit sign0) (by simp [sessionInit]) h
  clear h
  induction ops with
  | nil => intro s hs; exact hs
  | cons op rest ih =>
    intro s hs
    refine ih (applyLifeOp s op) ?_
    cases op with
    | passCaps p => intro _; simp [applyLifeOp, passCapabilities]
    | openFin d => intro _; simp [applyLifeOp, openFinish]
    | closeS => intro hop; simp [applyLifeOp, closeSession] at hop

/-- Closed witness for `writable_iff_sign_while_open`: a session opened
with a signer is writable. -/
theorem writable_iff_sign_while_open_witness :
    (applyLifeOps (sessionInit (some 7)) [.openFin none]).opened = true ∧
    (applyLifeOps (sessionInit (some 7)) [.openFin none]).writable =
      (applyLifeOps (sessionInit (some 7)) [.openFin none]).sign.isSome :=
  ⟨by decide, writable_iff_sign_while_open (some 7) [.openFin none] (by decide)⟩

end Hypercore

namespace Hypercore

/-! ## Synchronous getters: `length`, `byteLength`, `fork`, `peers`
(`index.js` lines 314-334) and snapshot pinning (lines 76, 133-135) -/

/-- The fields the synchronous getters read: the optional snapshot pin
(`this._snapshot`), the optional attached core tree (`this.core`, `none`
models `null`), the encryption padding, and the optional replicator peer
list (`none` models `this.replicator === null`). -/
structure SessionView where
  snap : Option TreeState
  coreTree : Option TreeState
  padding : Nat
  peersList : Option (List Nat)
deriving DecidableEq

/-- Model of `get length()`: snapshot value if pinned, else 0 when the core is
`null`, else `core.tree.length`. -/
def lengthGet (s : SessionView) : Nat :=
  match s.snap with
  | some p => p.len
  | none => match s.coreTree with
    | none => 0
    | some t => t.len

/-- Model of `get byteLength()`: snapshot value if pinned, else 0 when the core is
`null`, else `core.tree.byteLength - core.tree.length * padding`. -/
def byteLengthGet (s : SessionView) : Nat :=
  match s.snap with
  | some p => p.byteLen
  | none => match s.coreTree with
    | none => 0
    | some t => t.byteLen - t.len * s.padding

/-- Model of `get fork()`: snapshot value if pinned, else 0 when the core is
`null`, else `core.tree.fork`. -/
def forkGet (s : SessionView) : Nat :=
  match s.snap with
  | some p => p.fork
  | none => match s.coreTree with
    | none => 0
    | some t => t.fork

/-- Model of `get peers()`: the empty array when the replicator is `null`, else
the replicator's peer list. -/
def peersGet (s : SessionView) : List Nat :=
  match s.peersList with
  | none => []
  | some ps => ps

/-- A mutation of the shared core tree: an append of buffers or a
truncation to a new length at a new fork. -/
inductive TreeOp where
  | append (buffers : List Bytes)
  | truncate (newLength : Nat) (fork : Nat)

/-- Effect of one core mutation on the tree counters. -/
def applyTreeOp (t : TreeState) : TreeOp → TreeState
  | .append bufs => coreAppendTree t bufs
  | .truncate n f => { t with len := n, fork := f }

/-- Effect of a sequence of core mutations. -/
def applyTreeOps (t : TreeState) (ops : List TreeOp) : TreeState :=
  ops.foldl applyTreeOp t

/-- A session observing the shared core after the core underwent the
given appends/truncations: the core tree changes, the session's snapshot
pin (set once by the constructor, never written again) does not. -/
def sessionAfterCoreOps (s : SessionView) (ops : List TreeOp) : SessionView :=
  { s with coreTree := s.coreTree.map (applyTreeOps · ops) }

/-- C6: for a session holding a snapshot pin, the observed
`(length, byteLength, fork)` triple equals the pin and is unchanged by
any sequence of appends and truncations applied to the shared core. -/
theorem snapshot_getters_constant (s : SessionView) (pin : TreeState)
    (hs : s.snap = some pin) (ops : List TreeOp) :
    lengthGet (sessionAfterCoreOps s ops) = pin.len ∧
    byteLengthGet (sessionAfterCoreOps s ops) = pin.byteLen ∧
    forkGet (sessionAfterCoreOps s ops) = pin.fork ∧
    lengthGet s = pin.len ∧ byteLengthGet s = pin.byteLen ∧
    forkGet s = pin.fork := by
  simp [lengthGet, byteLengthGet, forkGet, sessionAfterCoreOps, hs]

/-- Closed witness for `snapshot_getters_constant`: a session pinned at
`(2, 10, 0)` observes `(2, 10, 0)` after a further append and a
truncation were applied to the shared core. -/
theorem snapshot_getters_constant_witness :
    lengthGet (sessionAfterCoreOps ⟨some ⟨2, 10, 0⟩, some ⟨2, 10, 0⟩, 0, some []⟩
      [.append [[5, 5]], .truncate 1 1]) = 2 ∧
    byteLengthGet (sessionAfterCoreOps ⟨some ⟨2, 10, 0⟩, some ⟨2, 10, 0⟩, 0, some []⟩
      [.append [[5, 5]], .truncate 1 1]) = 10 ∧
    forkGet (sessionAfterCoreOps ⟨some ⟨2, 10, 0⟩, some ⟨2, 10, 0⟩, 0, some []⟩
      [.append [[5, 5]], .truncate 1 1]) = 0 ∧
    lengthGet ⟨some ⟨2, 10, 0⟩, some ⟨2, 10, 0⟩, 0, some []⟩ = 2 ∧
    byteLengthGet ⟨some ⟨2, 10, 0⟩, some ⟨2, 10, 0⟩, 0, some []⟩ = 10 ∧
    forkGet ⟨some ⟨2, 10, 0⟩, some ⟨2, 10, 0⟩, 0, some []⟩ = 0 :=
  snapshot_getters_constant ⟨some ⟨2, 10, 0⟩, some ⟨2, 10, 0⟩, 0, some []⟩
    ⟨2, 10, 0⟩ rfl [.append [[5, 5]], .truncate 1 1]

/-- Claim C10 as stated, at one session: when the core is not attached,
the three counters read 0 and `peers` reads the empty array. -/
def claimC10 (s : SessionView) : Prop :=
  s.coreTree = none →
    (lengthGet s = 0 ∧ byteLengthGet s = 0 ∧ forkGet s = 0 ∧ peersGet s = [])

/-- C10 counterexample: a session constructed with a `snapshot` option
pinned at `(5, 5, 1)` and no core attached reads `length = 5`, not 0 —
the snapshot branch of the getters takes precedence over the null-core
fallback. -/
theorem nullcore_getters_claim_fails :
    ¬ claimC10 ⟨some ⟨5, 5, 1⟩, none, 0, none⟩ := by
  intro h
  have := (h rfl).1
  simp [lengthGet] at this

/-- C10 (amended): for a session without a snapshot pin whose core is
not yet attached and whose replicator is not yet attached, the
synchronous getters `length`, `byteLength` and `fork` return 0 and
`peers` returns the empty array rather than throwing. -/
theorem nullcore_getters_zero (s : SessionView) (hsnap : s.snap = none)
    (hcore : s.coreTree = none) (hrep : s.peersList = none) :
    lengthGet s = 0 ∧ byteLengthGet s = 0 ∧ forkGet s = 0 ∧ peersGet s = [] := by
  simp [lengthGet, byteLengthGet, forkGet, peersGet, hsnap, hcore, hrep]

/-- Closed witness for `nullcore_getters_zero` on a freshly constructed
session. -/
theorem nullcore_getters_zero_witness :
    lengthGet ⟨none, none, 0, none⟩ = 0 ∧ byteLengthGet ⟨none, none, 0, none⟩ = 0 ∧
    forkGet ⟨none, none, 0, none⟩ = 0 ∧ peersGet ⟨none, none, 0, none⟩ = [] :=
  nullcore_getters_zero ⟨none, none, 0, none⟩ rfl rfl rfl

end Hypercore

namespace Hypercore

/-! ## Update routing: `_oncoreupdate` (`index.js` lines 356-384)

The observable behaviour is the ordered sequence of cache clears, event
emissions and replicator broadcasts the callback performs.  Sessions are
identified by their position handle (a `Nat`); the registered session
list is a `Nodup` list of such handles.  A `null` bitfield is modelled by
`blen = 0` together with `value = none`. -/

/-- One observable step of `_oncoreupdate`, in program order. -/
inductive Ev where
  | cacheClear (sess : Nat)
  | truncateEv (sess : Nat) (start : Nat) (fork : Nat)
  | appendEv (sess : Nat)
  | broadcastInfo
  | broadcastBlock (index : Nat)
  | downloadEv (sess : Nat) (start : Nat) (byteLen : Nat)
deriving DecidableEq

/-- The session a step is dispatched to (`none` for replicator
broadcasts, which have no session). -/
def evSession : Ev → Option Nat
  | .cacheClear i => some i
  | .truncateEv i _ _ => some i
  | .appendEv i => some i
  | .downloadEv i _ _ => some i
  | .broadcastInfo => none
  | .broadcastBlock _ => none

/-- The body of the status loop for one session `i` (`index.js` lines
359-365): on the truncate bit, clear the cache (when configured) and emit
`truncate(bitfield.start, core.tree.fork)`; on the append bit, emit
`append`. -/
def perSessionStatusEvents (status : Nat) (cacheCfg : Bool) (treeFork : Nat)
    (bstart : Nat) (i : Nat) : List Ev :=
  (if status &&& 2 ≠ 0 then
    (if cacheCfg then [.cacheClear i] else []) ++ [.truncateEv i bstart treeFork]
  else []) ++
  (if status &&& 1 ≠ 0 then [.appendEv i] else [])

/-- Model of `_oncoreupdate(status, bitfield, value, from)`: the status loop over
all sessions followed by `broadcastInfo` (when `status ≠ 0`), then the
`broadcastBlock` loop over the non-drop bitfield delta, then the
`download` emission loop over all sessions (when a value is present). -/
def oncoreupdate (status : Nat) (cacheCfg : Bool) (treeFork : Nat)
    (sessions : List Nat) (bstart blen : Nat) (bdrop : Bool)
    (value : Option Bytes) (padding : Nat) : List Ev :=
  (if status ≠ 0 then
    sessions.flatMap (perSessionStatusEvents status cacheCfg treeFork bstart) ++
      [.broadcastInfo]
  else []) ++
  (if bdrop then [] else (List.range blen).map (fun j => .broadcastBlock (bstart + j))) ++
  (match value with
   | some v => sessions.map (fun i => .downloadEv i bstart (v.length - padding))
   | none => [])

/-- Every step of the status-loop body for session `i` is dispatched to
session `i`. -/
theorem perSessionStatusEvents_session {status : Nat} {cacheCfg : Bool}
    {treeFork bstart i : Nat} {e : Ev}
    (he : e ∈ perSessionStatusEvents status cacheCfg treeFork bstart i) :
    evSession e = some i := by
  unfold perSessionStatusEvents at he
  rcases List.mem_append.1 he with h | h
  · split at h
    · rcases List.mem_append.1 h with h' | h'
      · split at h'
        · simp only [List.mem_singleton] at h'
          subst h'; rfl
        · simp at h'
      · simp only [List.mem_singleton] at h'
        subst h'; rfl
    · simp at h
  · split at h
    · simp only [List.mem_singleton] at h
      subst h; rfl
    · simp at h

/-- Filtering an interleaved per-session dispatch down to one registered
session recovers exactly that session's chunk. -/
theorem filter_flatMap_session (f : Nat → List Ev) (i : Nat)
    (hf : ∀ j, ∀ e ∈ f j, evSession e = some j) :
    ∀ (sessions : List Nat), i ∈ sessions → sessions.Nodup →
      (sessions.flatMap f).filter (fun e => decide (evSession e = some i)) = f i := by
  intro sessions
  induction sessions with
  | nil => intro h; cases h
  | cons j rest ih =>
    intro hmem hnd
    rw [List.flatMap_cons, List.filter_append]
    by_cases hj : j = i
    · subst hj
      have h1 : (f j).filter (fun e => decide (evSession e = some j)) = f j :=
        List.filter_eq_self.2 (fun a ha => by simp [hf j a ha])
      have hrest : j ∉ rest := (List.nodup_cons.1 hnd).1
      have h2 : (rest.flatMap f).filter (fun e => decide (evSession e = some j)) = [] := by
        refine List.filter_eq_nil_iff.2 ?_
        intro a ha
        rcases List.mem_flatMap.1 ha with ⟨j', hj', ha'⟩
        have hs := hf j' a ha'
        simp only [hs, decide_eq_true_eq, Option.some.injEq]
        intro hji
        exact hrest (hji ▸ hj')
      rw [h1, h2, List.append_nil]
    · have h1 : (f j).filter (fun e => decide (evSession e = some i)) = [] := by
        refine List.filter_eq_nil_iff.2 ?_
        intro a ha
        have hs := hf j a ha
        simp only [hs, decide_eq_true_eq, Option.some.injEq]
        exact hj
      have hmem' : i ∈ rest := by
        rcases List.mem_cons.1 hmem with h | h
        · exact absurd h.symm hj
        · exact h
      rw [h1, List.nil_append]
      exact ih hmem' (List.nodup_cons.1 hnd).2

/-- Model of `map` as a flat map of singletons, to reuse
`filter_flatMap_session` for the download loop. -/
theorem map_eq_flatMap_singleton (g : Nat → Ev) (l : List Nat) :
    l.map g = l.flatMap (fun j => [g j]) := by
  induction l with
  | nil => rfl
  | cons x xs ih => simp [ih]

/-- C7: in one `_oncoreupdate` invocation, the steps dispatched to any
one registered session are, in order: the cache clear (when a cache is
configured) immediately followed by the `truncate` event (when the
truncate bit is set), then the `append` event (when the append bit is
set), then the `download` event (when a value is present). -/
theorem oncoreupdate_per_session_order (status : Nat) (cacheCfg : Bool)
    (treeFork : Nat) (sessions : List Nat) (bstart blen : Nat) (bdrop : Bool)
    (value : Option Bytes) (padding : Nat) (i : Nat)
    (hmem : i ∈ sessions) (hnd : sessions.Nodup) :
    (oncoreupdate status cacheCfg treeFork sessions bstart blen bdrop value
        padding).filter (fun e => decide (evSession e = some i)) =
      perSessionStatusEvents status cacheCfg treeFork bstart i ++
        (match value with
         | some v => [.downloadEv i bstart (v.length - padding)]
         | none => []) := by
  unfold oncoreupdate
  rw [List.filter_append, List.filter_append]
  have hblocks : ((if bdrop then [] else
      (List.range blen).map fun j => Ev.broadcastBlock (bstart + j)).filter
        (fun e => decide (evSession e = some i))) = [] := by
    refine List.filter_eq_nil_iff.2 ?_
    intro a ha
    split at ha
    · cases ha
    · rcases List.mem_map.1 ha with ⟨j, -, rfl⟩
      simp [evSession]
  have hdl : ((match value with
      | some v => sessions.map (fun s => Ev.downloadEv s bstart (v.length - padding))
      | none => []).filter (fun e => decide (evSession e = some i))) =
      (match value with
       | some v => [Ev.downloadEv i bstart (v.length - padding)]
       | none => []) := by
    rcases value with _ | v
    · rfl
    · show (sessions.map fun s => Ev.downloadEv s bstart (v.length - padding)).filter
          (fun e => decide (evSession e = some i)) =
        [Ev.downloadEv i bstart (v.length - padding)]
      rw [map_eq_flatMap_singleton]
      exact filter_flatMap_session _ i
        (fun j e he => by
          simp only [List.mem_singleton] at he
          subst he; rfl) sessions hmem hnd
  have hstatus : ((if status ≠ 0 then
      sessions.flatMap (perSessionStatusEvents status cacheCfg treeFork bstart) ++
        [Ev.broadcastInfo]
    else []).filter (fun e => decide (evSession e = some i))) =
      perSessionStatusEvents status cacheCfg treeFork bstart i := by
    by_cases hs : status = 0
    · subst hs
      simp [perSessionStatusEvents]
    · rw [if_pos hs, List.filter_append]
      rw [filter_flatMap_session _ i (fun j e he => perSessionStatusEvents_session he)
        sessions hmem hnd]
      simp [evSession]
  rw [hblocks, hdl, hstatus]
  simp

/-- Closed witness for `oncoreupdate_per_session_order`: two sessions,
both status bits set, a cache configured and a delivered value; session
0's steps are cache clear, truncate, append, download in that order. -/
theorem oncoreupdate_per_session_order_witness :
    (0 : Nat) ∈ [0, 1] ∧ ([0, 1] : List Nat).Nodup ∧
    (oncoreupdate 3 true 4 [0, 1] 2 1 false (some [9, 9]) 0).filter
        (fun e => decide (evSession e = some 0)) =
      [.cacheClear 0, .truncateEv 0 2 4, .appendEv 0, .downloadEv 0 2 2] :=
  ⟨by decide, by decide,
    oncoreupdate_per_session_order 3 true 4 [0, 1] 2 1 false (some [9, 9]) 0 0
      (by decide) (by decide)⟩

end Hypercore

namespace Hypercore

/-! ## Download ranges: `download(range)` (`index.js` lines 464-491) -/

/-- The `range` argument of `download`: optional `start`, optional
numeric `end`, optional `blocks` collection, `linear` flag.  `none`
models an absent (undefined) field. -/
structure RangeOpts where
  start : Option Nat
  endi : Option Int
  blocks : Option (List Nat)
  linear : Bool

/-- The range handed to `Replicator.createRange(start, end, filter,
linear)`: the filter closure is represented by the `blocks` list it
closes over (`none` when no filter is built). -/
structure RangeDesc where
  start : Nat
  endi : Int
  filterBlocks : Option (List Nat)
  linear : Bool
deriving DecidableEq

/-- JS `a || b` on an optional number: an absent or zero (falsy) `a`
yields `b`. -/
def jsOrNat (a : Option Nat) (b : Nat) : Nat :=
  match a with
  | some v => if v = 0 then b else v
  | none => b

/-- JS `a || b` on an optional integer. -/
def jsOrInt (a : Option Int) (b : Int) : Int :=
  match a with
  | some v => if v = 0 then b else v
  | none => b

/-- Model of `min(iterable)` (`index.js` lines 604-606): `Math.min` folded over
the collection; meaningful on non-empty input. -/
def listMin : List Nat → Nat
  | [] => 0
  | x :: xs => xs.foldl Nat.min x

/-- Model of `max(iterable)` (`index.js` lines 608-610). -/
def listMax : List Nat → Nat
  | [] => 0
  | x :: xs => xs.foldl Nat.max x

/-- Model of `download(range)` (`index.js` lines 464-491): with `blocks` present,
`start = range.start || (size ? min(blocks) : 0)`,
`end = range.end || (size ? max(blocks) + 1 : 0)` and a membership
filter; otherwise `start = range.start || 0` and `end` is the given
number or `-1` (download all), with no filter. -/
def hdownload (r : RangeOpts) : RangeDesc :=
  match r.blocks with
  | some bl =>
    ⟨jsOrNat r.start (if bl = [] then 0 else listMin bl),
     jsOrInt r.endi (if bl = [] then 0 else (listMax bl : Int) + 1),
     some bl, r.linear⟩
  | none =>
    ⟨r.start.getD 0, r.endi.getD (-1), none, r.linear⟩

/-- The filter of the created range: `(i) => blocks.has(i)` when blocks
were given, accept-all otherwise. -/
def rangeAccepts (d : RangeDesc) (i : Nat) : Bool :=
  match d.filterBlocks with
  | some bl => decide (i ∈ bl)
  | none => true

/-- Claim C8 as stated, at one `download` call. -/
def claimC8At (r : RangeOpts) : Prop :=
  (∀ bl, r.blocks = some bl → bl ≠ [] →
    (hdownload r).start = listMin bl ∧
    (hdownload r).endi = (listMax bl : Int) + 1 ∧
    (∀ i, rangeAccepts (hdownload r) i = true ↔ i ∈ bl)) ∧
  (r.blocks = none → r.endi = none → (hdownload r).endi = -1)

/-- C8 counterexample: `download({start: 2, blocks: [5, 7]})` builds a
range with `start = 2`, not `min(blocks) = 5` — a truthy `range.start`
overrides the minimum (`start = range.start || min(blocks)`), so the
claim fails for calls that pass both `start` and `blocks`. -/
theorem download_claim_fails_with_start :
    ¬ claimC8At ⟨some 2, none, some [5, 7], false⟩ := by
  intro h
  have h5 := (h.1 [5, 7] rfl (by decide)).1
  exact absurd h5 (by decide)

/-- C8 (amended): when `range.blocks` is a non-empty collection and no
truthy `range.start`/`range.end` is passed alongside it, the created
range has `start = min(blocks)`, `end = max(blocks) + 1` and a filter
accepting exactly the members of `blocks`; when `range.blocks` is absent
and no numeric `end` is given, `end = -1`, meaning all blocks. -/
theorem download_range_construction (r : RangeOpts) (bl : List Nat) :
    (r.blocks = some bl → bl ≠ [] →
      (r.start = none ∨ r.start = some 0) →
      (r.endi = none ∨ r.endi = some 0) →
      (hdownload r).start = listMin bl ∧
      (hdownload r).endi = (listMax bl : Int) + 1 ∧
      (∀ i, rangeAccepts (hdownload r) i = true ↔ i ∈ bl)) ∧
    (r.blocks = none → r.endi = none → (hdownload r).endi = -1) := by
  constructor
  · intro hbl hne hs he
    have h1 : (hdownload r).start = listMin bl := by
      rcases hs with hs | hs <;>
        simp [hdownload, hbl, hs, jsOrNat, hne]
    have h2 : (hdownload r).endi = (listMax bl : Int) + 1 := by
      rcases he with he | he <;>
        simp [hdownload, hbl, he, jsOrInt, hne]
    refine ⟨h1, h2, fun i => ?_⟩
    simp [hdownload, hbl, rangeAccepts]
  · intro hbl he
    simp [hdownload, hbl, he]

/-- Closed witness for `download_range_construction`:
`download({blocks: [5, 7, 6]})` gives `start = 5`, `end = 8`, a filter
accepting member 6 and rejecting non-member 4; `download()` gives
`end = -1`. -/
theorem download_range_construction_witness :
    (hdownload ⟨none, none, some [5, 7, 6], false⟩).start = listMin [5, 7, 6] ∧
    (hdownload ⟨none, none, some [5, 7, 6], false⟩).endi = (listMax [5, 7, 6] : Int) + 1 ∧
    (rangeAccepts (hdownload ⟨none, none, some [5, 7, 6], false⟩) 6 = true ↔
      6 ∈ [5, 7, 6]) ∧
    (hdownload ⟨none, none, none, false⟩).endi = -1 :=
  ⟨(download_range_construction ⟨none, none, some [5, 7, 6], false⟩ [5, 7, 6]).1
      rfl (by decide) (Or.inl rfl) (Or.inl rfl) |>.1,
   (download_range_construction ⟨none, none, some [5, 7, 6], false⟩ [5, 7, 6]).1
      rfl (by decide) (Or.inl rfl) (Or.inl rfl) |>.2.1,
   ((download_range_construction ⟨none, none, some [5, 7, 6], false⟩ [5, 7, 6]).1
      rfl (by decide) (Or.inl rfl) (Or.inl rfl) |>.2.2) 6,
   (download_range_construction ⟨none, none, none, false⟩ []).2 rfl rfl⟩

end Hypercore

namespace Hypercore

/-! ## Value encoding: `_encode` and `_decode` (`index.js` lines 552-578)

`_encode` builds a state `{start: padding, end: padding, buffer}`, sizes
the buffer by preencoding (or the raw byte length), allocates it, and
writes the payload at offset `padding`; the first `padding` bytes are
reserved for encryption metadata (`allocUnsafe` leaves them arbitrary —
modelled as zeros; only their count matters).  `_decode` strips the
`padding`-byte prefix and then applies the codec, if any. -/

/-- A compact-encoding codec for values of type `α`: sizing
(`preencode`), serialisation (`encode`) and deserialisation (`decode`). -/
structure Codec (α : Type) where
  preencodeLen : α → Nat
  encodeBytes : α → List Nat
  decodeBytes : List Nat → α

/-- Model of `buffer.set(bytes, pos)`: overwrite `bytes.length` bytes of `buffer`
at offset `pos`. -/
def writeAt (buffer : List Nat) (pos : Nat) (bytes : List Nat) : List Nat :=
  buffer.take pos ++ bytes ++ buffer.drop (pos + bytes.length)

/-- Model of `_encode(enc, val)` with a codec: allocate
`padding + enc.preencode(val)` bytes and write the encoded payload at
offset `padding`. -/
def encodeWithCodec {α : Type} (C : Codec α) (padding : Nat) (v : α) : List Nat :=
  writeAt (List.replicate (padding + C.preencodeLen v) 0) padding (C.encodeBytes v)

/-- Model of `_encode(enc = null, val)` on a byte buffer: returned as-is when
`padding = 0`, else copied after a `padding`-byte prefix. -/
def encodeBuffer (padding : Nat) (val : Bytes) : Bytes :=
  if padding = 0 then val
  else writeAt (List.replicate (padding + val.length) 0) padding val

/-- Model of `_decode(enc, block)` with a codec: strip the padding prefix, then
`c.decode`. -/
def decodeWithCodec {α : Type} (C : Codec α) (padding : Nat) (block : List Nat) : α :=
  C.decodeBytes (block.drop padding)

/-- Model of `_decode(enc = null, block)`: strip the padding prefix. -/
def decodeBuffer (padding : Nat) (block : Bytes) : Bytes :=
  block.drop padding

/-- Stripping the `pos`-byte prefix of a write at offset `pos` into a
zeroed buffer of exactly fitting size recovers the written bytes. -/
theorem drop_writeAt (p : Nat) (bytes : List Nat) :
    (writeAt (List.replicate (p + bytes.length) (0 : Nat)) p bytes).drop p = bytes := by
  unfold writeAt
  rw [List.take_replicate, List.drop_replicate]
  have hmin : p ⊓ (p + bytes.length) = p :=
    Nat.min_eq_left (Nat.le_add_right _ _)
  have hsub : p + bytes.length - (p + bytes.length) = 0 := Nat.sub_self _
  rw [hmin, hsub, List.replicate_zero, List.append_nil]
  have h := List.drop_left (List.replicate p (0 : Nat)) bytes
  rw [List.length_replicate] at h
  exact h

/-- C9: the `_decode`/`_encode` round-trip.  For any codec `E` that is
lawful (its `decode` inverts its `encode`, and `preencode` sizes
`encode`'s output), `_decode(E, _encode(E, v)) = v` at any padding; and
with no codec configured, `_encode` prefixes a byte buffer with exactly
`padding` bytes and `_decode` strips exactly that prefix, returning the
original bytes. -/
theorem encode_decode_roundtrip {α : Type} (C : Codec α) (padding : Nat) (v : α)
    (hlen : (C.encodeBytes v).length = C.preencodeLen v)
    (hdec : C.decodeBytes (C.encodeBytes v) = v) (val : Bytes) :
    decodeWithCodec C padding (encodeWithCodec C padding v) = v ∧
    (encodeBuffer padding val).length = padding + val.length ∧
    decodeBuffer padding (encodeBuffer padding val) = val := by
  refine ⟨?_, ?_, ?_⟩
  · unfold decodeWithCodec encodeWithCodec
    rw [← hlen, drop_writeAt, hdec]
  · unfold encodeBuffer
    by_cases hp : padding = 0
    · simp [hp]
    · rw [if_neg hp]
      unfold writeAt
      simp
  · unfold decodeBuffer encodeBuffer
    by_cases hp : padding = 0
    · simp [hp]
    · rw [if_neg hp]
      exact drop_writeAt padding val

/-- Closed witness for `encode_decode_roundtrip` with the identity bytes
codec at padding 2. -/
theorem encode_decode_roundtrip_witness :
    decodeWithCodec ⟨List.length, id, id⟩ 2
      (encodeWithCodec ⟨List.length, id, id⟩ 2 [3, 4]) = [3, 4] ∧
    (encodeBuffer 2 [8]).length = 2 + List.length [8] ∧
    decodeBuffer 2 (encodeBuffer 2 [8]) = [8] :=
  encode_decode_roundtrip ⟨List.length, id, id⟩ 2 [3, 4] rfl rfl [8]

end Hypercore






